import Mathlib

/-!
Verification of the xray-agent control-plane agent.

This file shallowly embeds the core operations of the agent -- the
capacity-limiter Lua scripts, the token-bucket rate limiter, the
idempotent issue enqueue, the worker's issue handler, the guard loop's
ban lock, the access-log aggregation, the bulk-restore counting engine,
the gRPC "already exists" classifier and the user-count decoder -- and
proves (or refutes) the specified properties about them.

Conventions of the embedding:
* machine integers are `Nat`/`Int`; Lua numbers inside the atomic
  scripts are modelled as `Rat` where fractional token counts matter;
* a Redis key that may be absent is `Option`;
* Python exceptions are `Except`;
* each script runs atomically, so an interleaving of concurrent calls
  is a sequence of script applications.
-/

namespace XrayAgent

/-! ### Capacity limiter (`app/security/capacity.py`)

`capReserve` embeds `CAPACITY_RESERVE_LUA`: read the counter (absent
means 0), deny when it is at or above the limit, otherwise `INCR` and
return the new value.  `capRelease` embeds `CAPACITY_RELEASE_LUA`:
absent key returns 0; a value at 0 is deleted; otherwise `DECR`,
deleting the key when the new value reaches 0.  The scripts execute
atomically in Redis, so any concurrent interleaving is a sequence of
applications; `CapOp.expire` models the safety-TTL expiry of the key. -/

def capReserve (limit : Nat) (st : Option Nat) : Option Nat × Bool × Nat :=
  let cur := st.getD 0
  if limit ≤ cur then (st, false, cur)
  else (some (cur + 1), true, cur + 1)

def capRelease (st : Option Nat) : Option Nat × Nat :=
  match st with
  | none => (none, 0)
  | some c =>
      if c = 0 then (none, 0)
      else if c - 1 = 0 then (none, 0)
      else (some (c - 1), c - 1)

inductive CapOp where
  | reserve
  | release
  | expire
  deriving DecidableEq

def capApply (limit : Nat) (st : Option Nat) : CapOp → Option Nat
  | .reserve => (capReserve limit st).1
  | .release => (capRelease st).1
  | .expire => none

def capRun (limit : Nat) (ops : List CapOp) : Option Nat :=
  ops.foldl (capApply limit) none

/-! ### gRPC "already exists" classification (`app/xray.py`)

`grpcIsAlreadyExists` embeds `_grpc_is_already_exists`: true when the
status code is `ALREADY_EXISTS`, or when the lower-cased detail text
contains both "already" and "exist", or contains "duplicate". -/

inductive GrpcCode where
  | alreadyExists
  | unknown
  | internal
  | notFound
  | unavailable
  deriving DecidableEq

def segIn (n : List Char) : List Char → Bool
  | [] => n.isEmpty
  | c :: cs => n.isPrefixOf (c :: cs) || segIn n cs

/-- Character-wise lower-casing of a string (Python's `.lower()` on the
ASCII error details the adapter sees). -/
def lowerChars (s : String) : List Char :=
  s.data.map Char.toLower

/-- Case-insensitive substring test: the (already lower-case) needle
occurs inside the lower-cased haystack. -/
def containsLower (needle haystack : String) : Bool :=
  segIn needle.data (lowerChars haystack)

def grpcIsAlreadyExists (code : Option GrpcCode) (details : String) : Bool :=
  if code = some GrpcCode.alreadyExists then true
  else
    (containsLower "already" details && containsLower "exist" details)
      || containsLower "duplicate" details

/-- Modelled from the spec wording of C8 (for comparison with the code):
classify when the status code is `ALREADY_EXISTS`, or the detail text
matches, case-insensitively, the substring "already exists" or the
substring "duplicate". -/
def specAlreadyExists (code : Option GrpcCode) (details : String) : Bool :=
  code = some GrpcCode.alreadyExists
    || containsLower "already exists" details
    || containsLower "duplicate" details

/-! ### Inbound user count decoding (`app/xray.py`, `inbound_users_count`)

On a successful RPC the decoded response dictionary's `count` field
(default 0 when absent) is passed through Python's `int(...)` inside a
`try/except` that falls back to 0.  `PyVal` models the JSON-decoded
value; `pyInt` models `int(...)` returning `none` where Python raises.
Python's `int` on a string strips surrounding whitespace, accepts an
optional sign and ASCII digits with single underscores between digit
groups. -/

inductive PyVal where
  | vInt (n : Int)
  | vStr (s : String)
  | vBool (b : Bool)
  | vNull
  | vList
  | vDict
  deriving DecidableEq

def pyDigitsCore (acc : Nat) : List Char → Option Nat
  | [] => some acc
  | c :: cs =>
      if c.isDigit then pyDigitsCore (10 * acc + (c.toNat - 48)) cs
      else if c = '_' then
        match cs with
        | d :: cs2 =>
            if d.isDigit then pyDigitsCore (10 * acc + (d.toNat - 48)) cs2
            else none
        | [] => none
      else none

def pyDigits : List Char → Option Nat
  | [] => none
  | c :: cs => if c.isDigit then pyDigitsCore (c.toNat - 48) cs else none

def wsChar (c : Char) : Bool :=
  c.isWhitespace

/-- Strip leading and trailing whitespace, as Python's `int(str)` does. -/
def listTrim (l : List Char) : List Char :=
  ((l.dropWhile wsChar).reverse.dropWhile wsChar).reverse

def pyIntOfString (s : String) : Option Int :=
  match listTrim s.data with
  | '+' :: rest => (pyDigits rest).map (fun n => (n : Int))
  | '-' :: rest => (pyDigits rest).map (fun n => -(n : Int))
  | rest => (pyDigits rest).map (fun n => (n : Int))

def pyInt : PyVal → Option Int
  | .vInt n => some n
  | .vBool b => some (if b then 1 else 0)
  | .vStr s => pyIntOfString s
  | .vNull => none
  | .vList => none
  | .vDict => none

/-- The count decoding of `inbound_users_count`: `raw = data.get("count", 0)`
then `int(raw)` with fallback 0 on any parse failure.  Total by
construction: the `try/except` is the `Option.getD`. -/
def inboundUsersCountParse (field : Option PyVal) : Int :=
  match field with
  | none => 0
  | some v => (pyInt v).getD 0

/-! ### Issue enqueue with idempotency (`app/queue.py`, `enqueue_issue_job`)

Redis is modelled as the tuple of the idempotency keyspace, the job
status keyspace and the queue list.  The SHA-256 of
`"telegram_id|inbound_tag"` is modelled by the pre-image string itself
(the hash is a deterministic injective key derivation; no claim depends
on its value).  `SET key val NX EX` succeeds exactly when the key is
absent, which in the sequential model means the `GET` after a failed
`SET NX` always finds the existing job id. -/

def strTrim (s : String) : String :=
  ⟨listTrim s.data⟩

def strTake (n : Nat) (s : String) : String :=
  ⟨s.data.take n⟩

structure RState where
  idem : String → Option String
  jobs : String → Option String
  queue : List String

def normTag (tagOpt : Option String) : String :=
  let t := strTrim (tagOpt.getD "")
  if t = "" then "vless-in" else t

def idemKeyOf (tg tag : String) : String :=
  "xray_idem:" ++ tg ++ "|" ++ tag

def jobKeyOf (id : String) : String :=
  "xray_job:" ++ id

def enqueueIssueJob (st : RState) (newId : String) (tg : String)
    (tagOpt : Option String) : RState × String × Bool :=
  let tgN := strTrim tg
  let tag := normTag tagOpt
  let key := idemKeyOf tgN tag
  match st.idem key with
  | some existing => (st, existing, true)
  | none =>
      ({ idem := fun k => if k = key then some newId else st.idem k,
         jobs := fun k => if k = jobKeyOf newId then some "queued" else st.jobs k,
         queue := newId :: st.queue }, newId, false)

/-! ### Worker issue handler (`worker.py`, `handle`, kind `issue_client`)

The handler's effects are recorded as an action trace; the `addUser`
action records the dispatch of the add RPC.  The live adapter in
`app/xray.py` is the grpc.aio variant, so `add_client` is an `async def`
(`app/xray.py:1325`); the worker dispatches it with
`asyncio.to_thread(add_client, ...)` (`worker.py:129-130, 172`), which
calls the async function inside a thread and therefore returns its
never-awaited coroutine object without running the RPC body.  No
outcome of the add RPC -- success, AlreadyExists or a transport error --
can surface in the branch: execution always continues to the link build
and the best-effort notify.  `AddOutcome` records the outcome the RPC
would have had, kept as a parameter precisely to state that it cannot
influence the handler.  The worker loop (`worker_loop`) turns the
handler's `Except` into the final job state document: an uncaught
exception `e` (only the link builder can raise here) becomes state
`error` with `{type: type(e).__name__, message: str(e)[:500]}`. -/

structure WSettings where
  default_inbound_tag : String
  default_flow : String
  public_host : String
  public_port : Nat
  reality_sni : String
  reality_pbk : String
  reality_sid : String
  reality_fp : String
  deriving DecidableEq

inductive AddOutcome where
  | ok
  | alreadyExists
  | transport (msg : String)
  deriving DecidableEq

structure NotifyInfo where
  skipped : Bool
  detail : String
  deriving DecidableEq

inductive WAction where
  | addUser (uuid email tag : String) (level : Int) (flow : String)
  | capReserveAct (tag : String)
  | capReleaseAct (tag : String)
  | notifyAct
  deriving DecidableEq

structure IssuePayload where
  telegram_id : String
  inbound_tag : Option String
  level : Int
  flow : Option String
  deriving DecidableEq

def effTagOf (s : WSettings) (tagOpt : Option String) : String :=
  match tagOpt with
  | some t => if t = "" then s.default_inbound_tag else t
  | none => s.default_inbound_tag

def effFlowOf (s : WSettings) (flowOpt : Option String) : String :=
  match flowOpt with
  | some f => f
  | none => s.default_flow

structure IssuedDoc where
  uuid : String
  email : String
  inbound_tag : String
  link : String
  deriving DecidableEq

structure IssueResult where
  issued : IssuedDoc
  notify : NotifyInfo
  deriving DecidableEq

inductive WErr where
  | runtimeErr (msg : String)
  deriving DecidableEq

def errTypeName : WErr → String
  | .runtimeErr _ => "RuntimeError"

def errMessage : WErr → String
  | .runtimeErr m => m

def buildVlessLink (s : WSettings) (userUuid email flow : String) :
    Except String String :=
  let missing :=
    (if s.public_host = "" then ["PUBLIC_HOST"] else [])
      ++ (if s.reality_sni = "" then ["REALITY_SNI"] else [])
      ++ (if s.reality_pbk = "" then ["REALITY_PBK"] else [])
      ++ (if s.reality_sid = "" then ["REALITY_SID"] else [])
  if missing.isEmpty then
    let port := if s.public_port = 0 then 443 else s.public_port
    let fp := if s.reality_fp = "" then "chrome" else s.reality_fp
    let flowQ := if flow = "" then "&flow=xtls-rprx-vision" else "&flow=" ++ flow
    Except.ok
      ("vless://" ++ userUuid ++ "@" ++ s.public_host ++ ":" ++ toString port
        ++ "?encryption=none" ++ flowQ
        ++ "&security=reality&sni=" ++ s.reality_sni
        ++ "&fp=" ++ fp
        ++ "&pbk=" ++ s.reality_pbk
        ++ "&sid=" ++ s.reality_sid
        ++ "&type=tcp#VPN-" ++ email)
  else
    Except.error ("Missing env params: " ++ String.intercalate ", " missing)

def handleIssue (s : WSettings) (p : IssuePayload) (freshUuid : String)
    (_addRes : AddOutcome) (ntf : NotifyInfo) :
    List WAction × Except WErr IssueResult :=
  match buildVlessLink s freshUuid (strTrim p.telegram_id) (effFlowOf s p.flow) with
  | .error m =>
      ([WAction.addUser freshUuid (strTrim p.telegram_id)
          (effTagOf s p.inbound_tag) p.level (effFlowOf s p.flow)],
        Except.error (.runtimeErr m))
  | .ok link =>
      ([WAction.addUser freshUuid (strTrim p.telegram_id)
          (effTagOf s p.inbound_tag) p.level (effFlowOf s p.flow),
        WAction.notifyAct],
        Except.ok ⟨⟨freshUuid, strTrim p.telegram_id,
          effTagOf s p.inbound_tag, link⟩, ntf⟩)

inductive JobFinal where
  | done (result : IssueResult)
  | error (etype : String) (emsg : String)
  deriving DecidableEq

/-- The final job state written by `worker_loop` for an `issue_client`
job: `done` with the handler result, or `error` with the `_safe_error`
document of the uncaught exception. -/
def issueJobFinal (s : WSettings) (p : IssuePayload) (freshUuid : String)
    (addRes : AddOutcome) (ntf : NotifyInfo) : JobFinal :=
  match (handleIssue s p freshUuid addRes ntf).2 with
  | .ok r => .done r
  | .error e => .error (errTypeName e) (strTake 500 (errMessage e))

/-- A fully populated settings record for concrete evaluations. -/
def demoSettings : WSettings :=
  ⟨"vless-in", "xtls-rprx-vision", "vpn.example.com", 443,
   "sni.example.com", "pbk123", "sid456", "chrome"⟩

/-! ### Guard loop (`app/workers/xray_guard/main.py`, `guard_once`) and
its Redis locks (`app/workers/xray_guard/queue.py`, `GuardRedis`)

Per `(inbound_tag, email)` the guard keeps four Redis keys: `warned_at`
(a timestamp with a TTL) and the three `once:warn/ban/thanks` locks set
with `SET NX EX` (`allow_once`).  A key set at time `t` with TTL `ttl`
is live at `now` exactly when `now < t + ttl`; `allowOnce` is the atomic
set-if-not-exists-with-expiry.  `guardTick` embeds one `guard_once`
evaluation for a single email that appears in the snapshot: `violating`
says whether the email is in the extracted violation set, `removeOk`
whether the `remove_client` RPC succeeds.  `idem` models the presence of
the issue idempotency key for the pair (cleared by
`clear_issue_dedupe_cache`).  The returned flag reports whether
`remove_client` was invoked on this tick. -/

structure GCfg where
  graceSec : Nat
  warnCooldownSec : Nat
  disableCooldownSec : Nat
  activeSeenSec : Nat
  deriving DecidableEq

structure GState where
  warnedAt : Option (Nat × Nat)
  warnLock : Option Nat
  banLock : Option Nat
  thanksLock : Option Nat
  idem : Bool
  deriving DecidableEq

def lockLive (lock : Option Nat) (now : Nat) : Bool :=
  match lock with
  | none => false
  | some e => now < e

def allowOnce (lock : Option Nat) (now ttl : Nat) : Bool × Option Nat :=
  if lockLive lock now then (false, lock) else (true, some (now + ttl))

def liveVal (v : Option (Nat × Nat)) (now : Nat) : Option Nat :=
  match v with
  | none => none
  | some (x, e) => if now < e then some x else none

structure GTick where
  now : Nat
  violating : Bool
  removeOk : Bool
  deriving DecidableEq

def guardTick (cfg : GCfg) (st : GState) (tk : GTick) : GState × Bool :=
  if tk.violating then
    match liveVal st.warnedAt tk.now with
    | none =>
        let res := allowOnce st.warnLock tk.now cfg.warnCooldownSec
        if res.1 then
          let ttl := max cfg.warnCooldownSec (cfg.graceSec + cfg.activeSeenSec + 30)
          ({ st with warnLock := res.2, warnedAt := some (tk.now, tk.now + ttl) },
            false)
        else ({ st with warnLock := res.2 }, false)
    | some w =>
        if cfg.graceSec + cfg.activeSeenSec + 60 < tk.now - w then
          ({ st with warnedAt := none }, false)
        else if tk.now - w < cfg.graceSec then (st, false)
        else
          let res := allowOnce st.banLock tk.now cfg.disableCooldownSec
          if res.1 then
            if tk.removeOk then
              ({ st with banLock := res.2, idem := false, warnedAt := none },
                true)
            else ({ st with banLock := res.2 }, true)
          else ({ st with banLock := res.2 }, false)
  else
    match liveVal st.warnedAt tk.now with
    | none => (st, false)
    | some _ =>
        let res := allowOnce st.thanksLock tk.now 1800
        ({ st with warnedAt := none, thanksLock := res.2 }, false)

def guardRun (cfg : GCfg) (st : GState) : List GTick → GState × List Nat
  | [] => (st, [])
  | tk :: rest =>
      let step := guardTick cfg st tk
      let res := guardRun cfg step.1 rest
      (res.1, if step.2 then tk.now :: res.2 else res.2)

/-- Bookkeeping predicate for the ban lock: given the current lock
expiry, each removal time must lie at or after it, and each removal
re-arms the lock for one cooldown. -/
def removalsOK (cd : Nat) : List Nat → Option Nat → Prop
  | [], _ => True
  | t :: ts, o => (∀ e, o = some e → e ≤ t) ∧ removalsOK cd ts (some (t + cd))

def demoGCfg : GCfg :=
  ⟨900, 300, 1800, 600⟩

def freshGState : GState :=
  ⟨none, none, none, none, true⟩

/-! ### Token-bucket rate limiter (`app/security/rate_limit.py`,
`LUA_TOKEN_BUCKET`)

The atomic Lua script reads `{ts, tokens}` from the bucket hash (an
absent bucket starts at `(now, burst)`), refills
`tokens ← min(burst, tokens + (now − last_ts) × rate)` with the negative
delta clamped to 0, allows and consumes one token when at least one is
available, otherwise denies with `retry_after = ⌈(1 − tokens)/rate⌉`,
and writes the state back.  Lua numbers are modelled as `Rat`;
timestamps are naturals (milliseconds), so the clamp is the truncated
subtraction.  Each script execution is atomic, so a history of calls on
one bucket is a list of timestamps. -/

structure TB where
  ts : Nat
  tokens : Rat
  deriving DecidableEq

def tbRefill (rate : Rat) (burst : Nat) (st : Option TB) (now : Nat) : Rat :=
  match st with
  | none => (burst : Rat)
  | some s => min (burst : Rat) (s.tokens + ((now - s.ts : Nat) : Rat) * rate)

def tbStep (rate : Rat) (burst : Nat) (st : Option TB) (now : Nat) :
    TB × Bool × Int :=
  if 1 ≤ tbRefill rate burst st now then
    (⟨now, tbRefill rate burst st now - 1⟩, true, 0)
  else
    (⟨now, tbRefill rate burst st now⟩, false,
      ⌈(1 - tbRefill rate burst st now) / rate⌉)

def tbRun (rate : Rat) (burst : Nat) : Option TB → List Nat → Option TB × Nat
  | st, [] => (st, 0)
  | st, t :: ts =>
      ((tbRun rate burst (some (tbStep rate burst st t).1) ts).1,
        (tbRun rate burst (some (tbStep rate burst st t).1) ts).2
          + (if (tbStep rate burst st t).2.1 then 1 else 0))

/-- A bucket state consistent with a start of observation at `t0` and a
monotone call history `times`: the stored token count is between 0 and
the burst and the stored timestamp is not before `t0`.  An absent bucket
only requires the history itself to be monotone. -/
def tbValid (burst : Nat) (t0 : Nat) (times : List Nat) : Option TB → Prop
  | none => times.Chain' (fun a b => a ≤ b)
  | some s =>
      0 ≤ s.tokens ∧ s.tokens ≤ (burst : Rat) ∧ t0 ≤ s.ts
        ∧ List.Chain (fun a b => a ≤ b) s.ts times

/-! ### Log aggregation
(`app/andpoints/endpoints_status_xray_clients.py`, `aggregate_status`)

Each parsed access-log event carries an epoch timestamp, the client
email, the source IP and the destination host.  `aggregate_status`
groups events by email into `{ips (a set), last_seen (max), host
counter, event count}` dictionaries and emits
`devices_estimate = len(ips)`.  Epoch timestamps are `Rat` (they carry
microseconds).  The `defaultdict` keyed by email is an association
list; the Python `set` of IPs is a duplicate-free list under
`setInsert`. -/

structure LogEvent where
  t : Rat
  email : String
  srcIp : String
  host : String
  deriving DecidableEq

structure ClientAgg where
  ips : List String
  last : Rat
  hosts : List (String × Nat)
  events : Nat
  deriving DecidableEq

def setInsert (l : List String) (x : String) : List String :=
  if x ∈ l then l else x :: l

def bumpHost : List (String × Nat) → String → List (String × Nat)
  | [], h => [(h, 1)]
  | (k, c) :: rest, h =>
      if k = h then (k, c + 1) :: rest else (k, c) :: bumpHost rest h

def lookupA : List (String × ClientAgg) → String → Option ClientAgg
  | [], _ => none
  | (k, v) :: rest, email => if k = email then some v else lookupA rest email

def updateA : List (String × ClientAgg) → String → ClientAgg → List (String × ClientAgg)
  | [], email, v => [(email, v)]
  | (k, w) :: rest, email, v =>
      if k = email then (k, v) :: rest else (k, w) :: updateA rest email v

def emptyAgg : ClientAgg :=
  ⟨[], 0, [], 0⟩

def aggStep (m : List (String × ClientAgg)) (e : LogEvent) :
    List (String × ClientAgg) :=
  let cur := (lookupA m e.email).getD emptyAgg
  updateA m e.email
    ⟨setInsert cur.ips e.srcIp, max cur.last e.t,
     bumpHost cur.hosts e.host, cur.events + 1⟩

def aggregateClients (events : List LogEvent) : List (String × ClientAgg) :=
  events.foldl aggStep []

/-- The `devices_estimate` field that `aggregate_status` reports for an
email: the size of that email's accumulated IP set. -/
def devicesEstimate (events : List LogEvent) (email : String) : Nat :=
  ((lookupA (aggregateClients events) email).getD emptyAgg).ips.length

def distinctIps (events : List LogEvent) (email : String) : List String :=
  ((events.filter (fun e => e.email == email)).map (fun e => e.srcIp)).dedup

/-- Modelled from the spec wording of C3 (for comparison with the code):
the per-IP last-seen time of one client IP. -/
def specLastSeenIp (events : List LogEvent) (email ip : String) : Rat :=
  ((events.filter (fun e => e.email == email && e.srcIp == ip)).map
    (fun e => e.t)).foldl max 0

/-- Modelled from the spec wording of C3 (for comparison with the code):
`active_ips = {ip | now − last_seen_ip ≤ ip_active_ttl}` and
`devices_estimate = |active_ips|`. -/
def specActiveIpsCount (events : List LogEvent) (email : String)
    (now ttl : Rat) : Nat :=
  ((distinctIps events email).filter
    (fun ip => decide (now - specLastSeenIp events email ip ≤ ttl))).length

/-! ### Bulk restore engine (`app/andpoints/api_restore.py`, `restore`)

Items are deduplicated by `(casefolded trimmed email, uuid)`; with
`precheck` the current email set is fetched (a failure there raises
HTTP 502); the deduplicated items are distributed over `concurrency`
workers through a queue -- modelled as an arbitrary partition of the
items into per-worker lists -- and each worker classifies every item:
precheck hit → `exists`, successful `add_client` → `added`, an error
classified already-exists → `skipped`, any other error → `errors` plus a
truncated `"email: message"` sample while the worker holds fewer than 20
samples.  The per-worker tuples are then summed, with the final sample
list capped at 20.  `AddRes.fail sentinel msg` is an `add_client`
exception: `sentinel` marks the `AlreadyExistsError` type, `msg` its
text; the `RestoreIn` model has no `timeout_sec` or `delay_ms` field, so
`getattr` always yields 0 and the timeout path is dead. -/

structure RItem where
  email : String
  uuid : String
  level : Int
  flow : String
  deriving DecidableEq

def lowerStr (s : String) : String :=
  ⟨s.data.map Char.toLower⟩

def normEmail (s : String) : String :=
  lowerStr (strTrim s)

inductive AddRes where
  | ok
  | fail (sentinel : Bool) (msg : String)
  deriving DecidableEq

def isAlreadyExistsMsg (m : String) : Bool :=
  (containsLower "already" m && containsLower "exist" m)
    || containsLower "alreadyexists" m
    || containsLower "duplicate" m

def dedupeKey (it : RItem) : String × String :=
  (normEmail it.email, it.uuid)

def dedupeGo (seen : List (String × String)) : List RItem → List RItem × Nat
  | [] => ([], 0)
  | it :: rest =>
      if dedupeKey it ∈ seen then
        ((dedupeGo seen rest).1, (dedupeGo seen rest).2 + 1)
      else
        (it :: (dedupeGo (dedupeKey it :: seen) rest).1,
          (dedupeGo (dedupeKey it :: seen) rest).2)

def dedupeItems (items : List RItem) : List RItem × Nat :=
  dedupeGo [] items

structure WCounts where
  exs : Nat
  added : Nat
  skipped : Nat
  errors : Nat
  samples : List String
  deriving DecidableEq

def hitPre (esOpt : Option (List String)) (it : RItem) : Bool :=
  match esOpt with
  | none => false
  | some es => decide (normEmail it.email ∈ es)

def wStep (esOpt : Option (List String)) (f : RItem → AddRes)
    (acc : WCounts) (it : RItem) : WCounts :=
  if hitPre esOpt it then { acc with exs := acc.exs + 1 }
  else
    match f it with
    | .ok => { acc with added := acc.added + 1 }
    | .fail s m =>
        if s || isAlreadyExistsMsg m then { acc with skipped := acc.skipped + 1 }
        else
          ⟨acc.exs, acc.added, acc.skipped, acc.errors + 1,
            if acc.samples.length < 20
            then acc.samples ++ [it.email ++ ": " ++ strTake 220 m]
            else acc.samples⟩

def workerRun (esOpt : Option (List String)) (f : RItem → AddRes)
    (items : List RItem) : WCounts :=
  items.foldl (wStep esOpt f) ⟨0, 0, 0, 0, []⟩

def classPre (esOpt : Option (List String)) (it : RItem) : Bool :=
  hitPre esOpt it

def classAdded (esOpt : Option (List String)) (f : RItem → AddRes)
    (it : RItem) : Bool :=
  !hitPre esOpt it && (match f it with | .ok => true | .fail _ _ => false)

def classSkipped (esOpt : Option (List String)) (f : RItem → AddRes)
    (it : RItem) : Bool :=
  !hitPre esOpt it
    && (match f it with | .ok => false | .fail s m => s || isAlreadyExistsMsg m)

def classErrored (esOpt : Option (List String)) (f : RItem → AddRes)
    (it : RItem) : Bool :=
  !hitPre esOpt it
    && (match f it with | .ok => false | .fail s m => !(s || isAlreadyExistsMsg m))

def sampleOf (esOpt : Option (List String)) (f : RItem → AddRes)
    (it : RItem) : Option String :=
  if hitPre esOpt it then none
  else
    match f it with
    | .ok => none
    | .fail s m =>
        if s || isAlreadyExistsMsg m then none
        else some (it.email ++ ": " ++ strTake 220 m)

def capAppend (acc l : List String) : List String :=
  acc ++ l.take (20 - acc.length)

def mergeSamples (ws : List (List String)) : List String :=
  ws.foldl capAppend []

structure RestoreOutM where
  total : Nat
  exs : Nat
  added : Nat
  skipped : Nat
  errors : Nat
  samples : List String
  deriving DecidableEq

def mergeResults (dup : Nat) (total : Nat) (ws : List WCounts) : RestoreOutM :=
  ⟨total,
   (ws.map WCounts.exs).sum,
   (ws.map WCounts.added).sum,
   dup + (ws.map WCounts.skipped).sum,
   (ws.map WCounts.errors).sum,
   mergeSamples (ws.map WCounts.samples)⟩

structure HErr where
  status : Nat
  detail : String
  deriving DecidableEq

def isOkE : Except HErr RestoreOutM → Bool
  | .ok _ => true
  | .error _ => false

def okOut : Except HErr RestoreOutM → RestoreOutM
  | .ok r => r
  | .error _ => ⟨0, 0, 0, 0, 0, []⟩

def restoreRun (itemsIn : List RItem) (precheck : Bool)
    (precheckRes : Except String (List String)) (f : RItem → AddRes)
    (part : List (List RItem)) : Except HErr RestoreOutM :=
  if precheck then
    match precheckRes with
    | .error e => .error ⟨502, "precheck failed: " ++ strTake 1200 e⟩
    | .ok emails =>
        .ok (mergeResults (dedupeItems itemsIn).2 (dedupeItems itemsIn).1.length
          (part.map (workerRun (some (emails.map normEmail)) f)))
  else
    .ok (mergeResults (dedupeItems itemsIn).2 (dedupeItems itemsIn).1.length
      (part.map (workerRun none f)))

def demoItems : List RItem :=
  [⟨" U1 ", "A", 0, "f"⟩, ⟨"u1", "A", 0, "f"⟩, ⟨"b", "B", 0, "f"⟩,
   ⟨"c", "C", 0, "f"⟩]

def demoF : RItem → AddRes :=
  fun it =>
    if it.email = "b" then .ok
    else if it.email = "c" then .fail false "boom"
    else .fail true "exists"

def demoPart : List (List RItem) :=
  [[⟨" U1 ", "A", 0, "f"⟩, ⟨"b", "B", 0, "f"⟩], [⟨"c", "C", 0, "f"⟩]]

end XrayAgent

namespace XrayAgent

/-! ## Theorems -/

/-- Helper: the capacity fold preserves the upper bound. -/
theorem capRun_aux (limit : Nat) :
    ∀ (ops : List CapOp) (st : Option Nat), st.getD 0 ≤ limit →
      (ops.foldl (capApply limit) st).getD 0 ≤ limit := by
  intro ops
  induction ops with
  | nil => intro st h; simpa using h
  | cons op rest ih =>
      intro st h
      simp only [List.foldl_cons]
      apply ih
      cases op with
      | reserve =>
          simp only [capApply, capReserve]
          by_cases hc : limit ≤ st.getD 0
          · simp [hc, h]
          · simp only [hc, if_false]
            simpa using Nat.lt_of_not_le hc
      | release =>
          simp only [capApply, capRelease]
          match st with
          | none => simp
          | some c =>
              by_cases hc : c = 0
              · simp [hc]
              · by_cases hc1 : c - 1 = 0
                · simp [hc, hc1]
                · simp only [hc, hc1, if_false]
                  simp only [Option.getD_some] at h ⊢
                  omega
      | expire => simp [capApply]

/-- C4: for every interleaving of the atomic reserve and release scripts on
a single capacity key with a fixed limit (interleavings are sequences of
script applications, since each Lua script runs atomically; TTL expiry of
the key is also allowed), the counter never exceeds the limit; a reserve
seeing current (absent reads as 0) at or above the limit returns denied
with the current value, otherwise it increments and returns the new value,
which is at most the limit; release decrements and deletes the key when
the value reaches zero. -/
theorem capacity_counter_invariant (limit : Nat) :
    (∀ ops : List CapOp, (capRun limit ops).getD 0 ≤ limit)
    ∧ (∀ st : Option Nat, limit ≤ st.getD 0 →
        capReserve limit st = (st, false, st.getD 0))
    ∧ (∀ st : Option Nat, st.getD 0 < limit →
        capReserve limit st = (some (st.getD 0 + 1), true, st.getD 0 + 1)
          ∧ st.getD 0 + 1 ≤ limit)
    ∧ capRelease none = (none, 0)
    ∧ (∀ c : Nat, capRelease (some c) =
        (if c ≤ 1 then none else some (c - 1), c - 1)) := by
  refine ⟨fun ops => capRun_aux limit ops none (by simp), ?_, ?_, ?_, ?_⟩
  · intro st h
    simp [capReserve, h]
  · intro st h
    constructor
    · simp [capReserve, Nat.not_le.mpr h]
    · omega
  · rfl
  · intro c
    by_cases h0 : c = 0
    · subst h0; rfl
    · by_cases h1 : c = 1
      · subst h1; rfl
      · have h2 : ¬ c ≤ 1 := by omega
        have h3 : ¬ c - 1 = 0 := by omega
        simp [capRelease, h0, h2, h3]

/-- C4 witness: the capacity theorem applied at limit 2 and concrete
states. -/
theorem capacity_counter_invariant_witness :
    (capRun 2 [CapOp.reserve, CapOp.reserve, CapOp.reserve]).getD 0 ≤ 2
    ∧ capReserve 2 (some 2) = (some 2, false, 2)
    ∧ (capReserve 2 (some 1) = (some 2, true, 2) ∧ 1 + 1 ≤ 2)
    ∧ capRelease none = (none, 0)
    ∧ capRelease (some 2) = (if 2 ≤ 1 then none else some 1, 1) :=
  ⟨(capacity_counter_invariant 2).1 _,
   (capacity_counter_invariant 2).2.1 (some 2) (by decide),
   (capacity_counter_invariant 2).2.2.1 (some 1) (by decide),
   (capacity_counter_invariant 2).2.2.2.1,
   (capacity_counter_invariant 2).2.2.2.2 2⟩

/-- C8 counterexample: the detail text "user exist already" is classified
as AlreadyExists by `_grpc_is_already_exists` (it contains both "already"
and "exist"), yet it contains neither the substring "already exists" nor
"duplicate", so the spec's stated condition rejects it: the claimed
"if and only if" is false. -/
theorem already_exists_claim_counterexample :
    grpcIsAlreadyExists none "user exist already" = true
    ∧ specAlreadyExists none "user exist already" = false := by
  exact ⟨rfl, rfl⟩

/-- C8 amended: `add_user` classifies a failed RPC as AlreadyExists if and
only if the remote status code is ALREADY_EXISTS, or the detail text,
case-insensitively, contains both the substring "already" and the
substring "exist", or contains the substring "duplicate". -/
theorem already_exists_classification (code : Option GrpcCode) (details : String) :
    grpcIsAlreadyExists code details = true ↔
      code = some GrpcCode.alreadyExists
      ∨ (containsLower "already" details = true
          ∧ containsLower "exist" details = true)
      ∨ containsLower "duplicate" details = true := by
  unfold grpcIsAlreadyExists
  by_cases h : code = some GrpcCode.alreadyExists <;> simp [h]

/-- C10: the count decoding of `inbound_users_count` is a total function
(the embedding returns an `Int` for every decoded value, mirroring the
`try/except` in the source): an integer field is returned as-is, a string
field parseable as a Python integer literal is returned as its value, an
absent field yields 0, and any unparseable field yields 0. -/
theorem inbound_users_count_parse (v : PyVal) :
    (∀ n : Int, inboundUsersCountParse (some (PyVal.vInt n)) = n)
    ∧ (∀ s n, pyIntOfString s = some n →
        inboundUsersCountParse (some (PyVal.vStr s)) = n)
    ∧ inboundUsersCountParse none = 0
    ∧ (pyInt v = none → inboundUsersCountParse (some v) = 0) := by
  refine ⟨fun n => rfl, fun s n h => ?_, rfl, fun h => ?_⟩
  · simp [inboundUsersCountParse, pyInt, h]
  · simp [inboundUsersCountParse, h]

/-- C5: while the idempotency key written by a first issue enqueue for a
`(telegram_id, inbound_tag)` pair is still present, a second enqueue for
the same pair returns the first job id with `deduped = true` and leaves
the whole store untouched: no status document is written and nothing is
pushed onto the queue. -/
theorem issue_enqueue_dedupe (st0 : RState) (tg : String)
    (tagOpt : Option String) (j1 j2 : String)
    (h : st0.idem (idemKeyOf (strTrim tg) (normTag tagOpt)) = none) :
    (enqueueIssueJob st0 j1 tg tagOpt).2.1 = j1
    ∧ (enqueueIssueJob st0 j1 tg tagOpt).2.2 = false
    ∧ (enqueueIssueJob (enqueueIssueJob st0 j1 tg tagOpt).1 j2 tg tagOpt).2.1 = j1
    ∧ (enqueueIssueJob (enqueueIssueJob st0 j1 tg tagOpt).1 j2 tg tagOpt).2.2 = true
    ∧ (enqueueIssueJob (enqueueIssueJob st0 j1 tg tagOpt).1 j2 tg tagOpt).1
        = (enqueueIssueJob st0 j1 tg tagOpt).1 := by
  simp only [enqueueIssueJob, h]
  simp

/-- C5 witness: the dedupe theorem at a fresh store and the pair
("123456", "vless-in"). -/
theorem issue_enqueue_dedupe_witness :
    (enqueueIssueJob ⟨fun _ => none, fun _ => none, []⟩ "job-1" "123456"
        (some "vless-in")).2.1 = "job-1"
    ∧ (enqueueIssueJob ⟨fun _ => none, fun _ => none, []⟩ "job-1" "123456"
        (some "vless-in")).2.2 = false
    ∧ (enqueueIssueJob (enqueueIssueJob ⟨fun _ => none, fun _ => none, []⟩
        "job-1" "123456" (some "vless-in")).1 "job-2" "123456"
        (some "vless-in")).2.1 = "job-1"
    ∧ (enqueueIssueJob (enqueueIssueJob ⟨fun _ => none, fun _ => none, []⟩
        "job-1" "123456" (some "vless-in")).1 "job-2" "123456"
        (some "vless-in")).2.2 = true
    ∧ (enqueueIssueJob (enqueueIssueJob ⟨fun _ => none, fun _ => none, []⟩
        "job-1" "123456" (some "vless-in")).1 "job-2" "123456"
        (some "vless-in")).1
      = (enqueueIssueJob ⟨fun _ => none, fun _ => none, []⟩ "job-1" "123456"
        (some "vless-in")).1 :=
  issue_enqueue_dedupe ⟨fun _ => none, fun _ => none, []⟩ "123456"
    (some "vless-in") "job-1" "job-2" rfl

/-- C1: an `issue_client` job whose `add_client` call would fail with
the AlreadyExists classification still reaches state `done` with an
issued result, never state `error` -- and indeed the classified add
outcome cannot influence the final state at all, because the worker
dispatches the async `add_client` through `asyncio.to_thread`, which
returns its never-awaited coroutine object instead of running the RPC
body.  The hypothesis is only that the link builder succeeds (the env
parameters are configured). -/
theorem issue_already_exists_job_done (s : WSettings) (p : IssuePayload)
    (u : String) (ntf : NotifyInfo) (link : String)
    (hlink : buildVlessLink s u (strTrim p.telegram_id) (effFlowOf s p.flow)
      = Except.ok link) :
    issueJobFinal s p u AddOutcome.alreadyExists ntf
      = JobFinal.done ⟨⟨u, strTrim p.telegram_id, effTagOf s p.inbound_tag, link⟩, ntf⟩
    ∧ (∀ et em : String,
        issueJobFinal s p u AddOutcome.alreadyExists ntf ≠ JobFinal.error et em)
    ∧ (∀ addRes : AddOutcome,
        issueJobFinal s p u addRes ntf
          = issueJobFinal s p u AddOutcome.alreadyExists ntf) := by
  have h1 : issueJobFinal s p u AddOutcome.alreadyExists ntf
      = JobFinal.done ⟨⟨u, strTrim p.telegram_id, effTagOf s p.inbound_tag, link⟩,
          ntf⟩ := by
    unfold issueJobFinal handleIssue
    rw [hlink]
  refine ⟨h1, fun et em => ?_, fun addRes => rfl⟩
  rw [h1]
  intro hcon
  cases hcon

/-- C1 witness: the theorem at the concrete job
`{telegram_id: "123456", inbound_tag: "vless-in"}` with the demo
settings, whose link builder produces a concrete `vless://` link. -/
theorem issue_already_exists_job_done_witness :
    issueJobFinal demoSettings ⟨"123456", some "vless-in", 0, none⟩ "u-1"
        AddOutcome.alreadyExists ⟨true, "n"⟩
      = JobFinal.done ⟨⟨"u-1", strTrim "123456",
          effTagOf demoSettings (some "vless-in"),
          "vless://u-1@vpn.example.com:443?encryption=none&flow=xtls-rprx-vision&security=reality&sni=sni.example.com&fp=chrome&pbk=pbk123&sid=sid456&type=tcp#VPN-123456"⟩,
          ⟨true, "n"⟩⟩
    ∧ (∀ et em : String,
        issueJobFinal demoSettings ⟨"123456", some "vless-in", 0, none⟩ "u-1"
          AddOutcome.alreadyExists ⟨true, "n"⟩ ≠ JobFinal.error et em) :=
  ⟨(issue_already_exists_job_done demoSettings ⟨"123456", some "vless-in", 0, none⟩
      "u-1" ⟨true, "n"⟩ _ rfl).1,
   (issue_already_exists_job_done demoSettings ⟨"123456", some "vless-in", 0, none⟩
      "u-1" ⟨true, "n"⟩ _ rfl).2.1⟩

/-- C2 (code bug): the worker's `issue_client` handler performs no
capacity reservation at all -- its effect trace starts directly with the
`add_user` call and contains no reserve action for any tag, so a denied
reservation (and the `CAPACITY_EXCEEDED` failure the spec requires)
cannot occur. -/
theorem issue_handler_never_reserves_capacity (s : WSettings)
    (p : IssuePayload) (u : String) (addRes : AddOutcome) (ntf : NotifyInfo) :
    (handleIssue s p u addRes ntf).1.head? =
      some (WAction.addUser u (strTrim p.telegram_id)
        (effTagOf s p.inbound_tag) p.level (effFlowOf s p.flow))
    ∧ ∀ tag : String,
        WAction.capReserveAct tag ∉ (handleIssue s p u addRes ntf).1 := by
  unfold handleIssue
  cases hb : buildVlessLink s u (strTrim p.telegram_id) (effFlowOf s p.flow) with
  | error m => simp [hb]
  | ok link => simp [hb]

/-- Helper: a dead lock (not live) has its expiry at or before now. -/
theorem lockLive_false_le (lock : Option Nat) (now : Nat)
    (h : lockLive lock now = false) : lock.getD 0 ≤ now := by
  cases lock with
  | none => simp
  | some e =>
      simp only [lockLive, decide_eq_false_iff_not, Nat.not_lt] at h
      simpa using h

/-- Helper: one guard tick either invokes `remove_client` -- which
requires the ban lock to be free and re-arms it for one cooldown, and on
a successful removal clears `warned_at` and the idempotency key -- or it
leaves the ban lock untouched. -/
theorem guardTick_spec (cfg : GCfg) (st : GState) (tk : GTick) :
    ((guardTick cfg st tk).2 = true →
      st.banLock.getD 0 ≤ tk.now
      ∧ (guardTick cfg st tk).1.banLock = some (tk.now + cfg.disableCooldownSec)
      ∧ (tk.removeOk = true →
          (guardTick cfg st tk).1.warnedAt = none
          ∧ (guardTick cfg st tk).1.idem = false))
    ∧ ((guardTick cfg st tk).2 = false →
      (guardTick cfg st tk).1.banLock = st.banLock) := by
  unfold guardTick
  by_cases hv : tk.violating = true
  · simp only [hv, if_true]
    cases hw : liveVal st.warnedAt tk.now with
    | none =>
        by_cases hwl : (allowOnce st.warnLock tk.now cfg.warnCooldownSec).1 = true
        · simp [hwl]
        · simp [hwl]
    | some w =>
        by_cases hstale : cfg.graceSec + cfg.activeSeenSec + 60 < tk.now - w
        · simp [hstale]
        · simp only [hstale, if_false]
          by_cases hgr : tk.now - w < cfg.graceSec
          · simp [hgr]
          · simp only [hgr, if_false]
            by_cases hbl : lockLive st.banLock tk.now = true
            · simp [allowOnce, hbl]
            · have hble : lockLive st.banLock tk.now = false := by
                cases h : lockLive st.banLock tk.now <;> simp_all
              by_cases hro : tk.removeOk = true
              · simp [allowOnce, hble, hro, lockLive_false_le _ _ hble]
              · have hro2 : tk.removeOk = false := by
                  cases h : tk.removeOk <;> simp_all
                simp [allowOnce, hble, hro2, lockLive_false_le _ _ hble]
  · have hv2 : tk.violating = false := by
      cases h : tk.violating <;> simp_all
    simp only [hv2, Bool.false_eq_true, if_false]
    cases hw : liveVal st.warnedAt tk.now with
    | none => simp
    | some w => simp

/-- Helper: along any guard run the removal times respect the ban-lock
bookkeeping. -/
theorem guardRun_removalsOK (cfg : GCfg) :
    ∀ (ticks : List GTick) (st : GState),
      removalsOK cfg.disableCooldownSec (guardRun cfg st ticks).2 st.banLock := by
  intro ticks
  induction ticks with
  | nil => intro st; exact trivial
  | cons tk rest ih =>
      intro st
      have hspec := guardTick_spec cfg st tk
      unfold guardRun
      by_cases hinv : (guardTick cfg st tk).2 = true
      · simp only [hinv, if_true]
        obtain ⟨hle, hban, _⟩ := hspec.1 hinv
        have ihr := ih (guardTick cfg st tk).1
        rw [hban] at ihr
        refine ⟨fun e he => ?_, ihr⟩
        rw [he] at hle
        simpa using hle
      · have hinv2 : (guardTick cfg st tk).2 = false := by
          cases h : (guardTick cfg st tk).2 <;> simp_all
        simp only [hinv2, Bool.false_eq_true, if_false]
        have hban := hspec.2 hinv2
        have ihr := ih (guardTick cfg st tk).1
        rw [hban] at ihr
        exact ihr

/-- Helper: the bookkeeping predicate yields consecutive separation by at
least one cooldown. -/
theorem removalsOK_chain (cd : Nat) :
    ∀ (l : List Nat) (o : Option Nat), removalsOK cd l o →
      l.Chain' (fun a b => a + cd ≤ b) := by
  intro l
  induction l with
  | nil => intro o _; exact List.chain'_nil
  | cons t ts ih =>
      intro o h
      cases ts with
      | nil => simp
      | cons u us =>
          exact List.chain'_cons.mpr ⟨h.2.1 (t + cd) rfl, ih (some (t + cd)) h.2⟩

/-- Helper: a list whose consecutive elements are at least `cd` apart has
at most one element in any half-open window of length `cd`. -/
theorem chain_window_count (cd : Nat) (l : List Nat)
    (hch : l.Chain' (fun a b => a + cd ≤ b)) (a : Nat) :
    (l.filter (fun x => decide (a ≤ x) && decide (x < a + cd))).length ≤ 1 := by
  haveI : IsTrans Nat (fun x y => x + cd ≤ y) := ⟨fun x y z h1 h2 => by omega⟩
  have hp : l.Pairwise (fun x y => x + cd ≤ y) := List.chain'_iff_pairwise.mp hch
  have hpf := hp.filter (fun x => decide (a ≤ x) && decide (x < a + cd))
  cases hf : l.filter (fun x => decide (a ≤ x) && decide (x < a + cd)) with
  | nil => simp [hf]
  | cons x xs =>
      cases xs with
      | nil => simp
      | cons y rest =>
          exfalso
          rw [hf] at hpf
          have hxy : x + cd ≤ y := (List.pairwise_cons.mp hpf).1 y (by simp)
          have hx : x ∈ l.filter (fun x => decide (a ≤ x) && decide (x < a + cd)) := by
            rw [hf]; simp
          have hy : y ∈ l.filter (fun x => decide (a ≤ x) && decide (x < a + cd)) := by
            rw [hf]; simp
          have hxp := List.of_mem_filter hx
          have hyp := List.of_mem_filter hy
          simp only [Bool.and_eq_true, decide_eq_true_eq] at hxp hyp
          omega

/-- C6: for every `(inbound_tag, email)` and any sequence of guard ticks
starting with a free `once:ban` lock, the guard invokes `remove_client`
at most once within any half-open window of length
`DISABLE_COOLDOWN_SEC` (the set-if-not-exists-with-expiry lock prevents
a repeat), and on a tick where removal is invoked and succeeds the
post-state has `warned_at` cleared and the issue idempotency key for the
pair invalidated. -/
theorem guard_remove_once_per_cooldown (cfg : GCfg) (ticks : List GTick)
    (st0 : GState) (h0 : st0.banLock = none) :
    (∀ a : Nat,
      ((guardRun cfg st0 ticks).2.filter
          (fun x => decide (a ≤ x) && decide (x < a + cfg.disableCooldownSec))).length ≤ 1)
    ∧ (∀ (st : GState) (tk : GTick),
        (guardTick cfg st tk).2 = true → tk.removeOk = true →
          (guardTick cfg st tk).1.warnedAt = none
          ∧ (guardTick cfg st tk).1.idem = false) := by
  constructor
  · intro a
    have h1 := guardRun_removalsOK cfg ticks st0
    rw [h0] at h1
    exact chain_window_count _ _ (removalsOK_chain _ _ _ h1) a
  · intro st tk hinv hro
    exact ((guardTick_spec cfg st tk).1 hinv).2.2 hro

/-- C6 witness: the cooldown theorem at the default guard configuration,
a fresh state, and three concrete ticks (warn at 0, silent grace at 20,
ban at 920), and the clearing conjunct at a concrete banning tick. -/
theorem guard_remove_once_witness :
    ((guardRun demoGCfg freshGState
        [⟨0, true, true⟩, ⟨20, true, true⟩, ⟨920, true, true⟩]).2.filter
        (fun x => decide (5 ≤ x) && decide (x < 5 + demoGCfg.disableCooldownSec))).length ≤ 1
    ∧ ((guardTick demoGCfg ⟨some (0, 2000), none, none, none, true⟩
          ⟨900, true, true⟩).1.warnedAt = none
      ∧ (guardTick demoGCfg ⟨some (0, 2000), none, none, none, true⟩
          ⟨900, true, true⟩).1.idem = false) :=
  ⟨(guard_remove_once_per_cooldown demoGCfg
      [⟨0, true, true⟩, ⟨20, true, true⟩, ⟨920, true, true⟩] freshGState rfl).1 5,
   (guard_remove_once_per_cooldown demoGCfg [] freshGState rfl).2
      ⟨some (0, 2000), none, none, none, true⟩ ⟨900, true, true⟩ (by decide) rfl⟩

/-- Helper: the refill never exceeds the burst. -/
theorem tbRefill_le_burst (rate : Rat) (burst : Nat) (st : Option TB) (now : Nat) :
    tbRefill rate burst st now ≤ (burst : Rat) := by
  cases st with
  | none => exact le_refl _
  | some s => exact min_le_left _ _

/-- Helper: the potential argument: along a monotone call history
starting from a valid state, the number of allowed calls is bounded by
the initial tokens plus the refill budget of the elapsed time. -/
theorem tbRun_count_le (rate : Rat) (burst : Nat) (hr : 0 < rate) :
    ∀ (times : List Nat) (s : TB) (T : Nat),
      0 ≤ s.tokens → s.tokens ≤ (burst : Rat) →
      List.Chain (fun a b => a ≤ b) s.ts times →
      (∀ t ∈ times, t ≤ T) →
      ((tbRun rate burst (some s) times).2 : Rat)
        ≤ s.tokens + rate * ((T - s.ts : Nat) : Rat) := by
  intro times
  induction times with
  | nil =>
      intro s T h0 _ _ _
      have hmul : (0 : Rat) ≤ rate * ((T - s.ts : Nat) : Rat) :=
        mul_nonneg hr.le (Nat.cast_nonneg _)
      simp only [tbRun, Nat.cast_zero]
      linarith
  | cons t ts ih =>
      intro s T h0 hb hch hle
      have hst : s.ts ≤ t := (List.chain_cons.mp hch).1
      have hch2 : List.Chain (fun a b => a ≤ b) t ts := (List.chain_cons.mp hch).2
      have htT : t ≤ T := hle t (List.mem_cons_self _ _)
      have hle2 : ∀ u ∈ ts, u ≤ T := fun u hu => hle u (List.mem_cons_of_mem _ hu)
      have htokle : tbRefill rate burst (some s) t
          ≤ s.tokens + ((t - s.ts : Nat) : Rat) * rate := min_le_right _ _
      have htokb : tbRefill rate burst (some s) t ≤ (burst : Rat) := min_le_left _ _
      have htoknn : 0 ≤ tbRefill rate burst (some s) t := by
        apply le_min (Nat.cast_nonneg _)
        have : (0 : Rat) ≤ ((t - s.ts : Nat) : Rat) * rate :=
          mul_nonneg (Nat.cast_nonneg _) hr.le
        linarith
      have hcast : ((t - s.ts : Nat) : Rat) + ((T - t : Nat) : Rat)
          = ((T - s.ts : Nat) : Rat) := by
        rw [Nat.cast_sub hst, Nat.cast_sub htT, Nat.cast_sub (le_trans hst htT)]
        ring
      by_cases hallow : (1 : Rat) ≤ tbRefill rate burst (some s) t
      · have hstep : tbStep rate burst (some s) t
            = (⟨t, tbRefill rate burst (some s) t - 1⟩, true, 0) := by
          unfold tbStep
          rw [if_pos hallow]
        have ih1 := ih ⟨t, tbRefill rate burst (some s) t - 1⟩ T
          (by simp only []; linarith)
          (by simp only []; linarith)
          (by simpa using hch2) hle2
        simp only [tbRun, hstep, if_true]
        push_cast
        simp only [] at ih1
        have hTt : rate * ((T - t : Nat) : Rat) = rate * ((T - s.ts : Nat) : Rat)
            - rate * ((t - s.ts : Nat) : Rat) := by
          rw [← hcast]; ring
        nlinarith [ih1, htokle, mul_nonneg hr.le (Nat.cast_nonneg (T - t))]
      · have hstep : tbStep rate burst (some s) t
            = (⟨t, tbRefill rate burst (some s) t⟩, false,
                ⌈(1 - tbRefill rate burst (some s) t) / rate⌉) := by
          unfold tbStep
          rw [if_neg hallow]
        have ih1 := ih ⟨t, tbRefill rate burst (some s) t⟩ T
          (by simp only []; linarith)
          (by simp only []; linarith)
          (by simpa using hch2) hle2
        simp only [tbRun, hstep, if_false]
        push_cast
        simp only [] at ih1
        have hTt : rate * ((T - t : Nat) : Rat) = rate * ((T - s.ts : Nat) : Rat)
            - rate * ((t - s.ts : Nat) : Rat) := by
          rw [← hcast]; ring
        nlinarith [ih1, htokle, mul_nonneg hr.le (Nat.cast_nonneg (T - t))]

/-- Helper: a first call on an absent bucket behaves exactly like a call
on a bucket freshly stored as `(now, burst)`. -/
theorem tbRun_none_eq (rate : Rat) (burst : Nat) (t : Nat) (ts : List Nat) :
    tbRun rate burst none (t :: ts)
      = tbRun rate burst (some ⟨t, (burst : Rat)⟩) (t :: ts) := by
  have hstep : tbStep rate burst none t = tbStep rate burst (some ⟨t, (burst : Rat)⟩) t := by
    unfold tbStep
    have : tbRefill rate burst (some ⟨t, (burst : Rat)⟩) t = tbRefill rate burst none t := by
      simp [tbRefill]
    rw [this]
  simp only [tbRun, hstep]

/-- C7: for any single rate-limit bucket with a positive rate, along any
monotone call history confined to a window `[t0, t0 + W]` and starting
from a valid bucket state, at most `burst + ⌈rate × W⌉` calls return
`allowed = true` (with `W` the window length, in particular the claimed
window `burst/rate`); moreover the refill is capped at `burst`, an
allowed call consumes exactly one token, and a call with fewer than one
token is denied with `retry_after = ⌈(1 − tokens)/rate⌉`. -/
theorem rate_limit_window_bound (rate : Rat) (burst : Nat) (times : List Nat)
    (t0 W : Nat) (st : Option TB) (hr : 0 < rate)
    (hv : tbValid burst t0 times st)
    (hwin : ∀ t ∈ times, t0 ≤ t ∧ t ≤ t0 + W) :
    (((tbRun rate burst st times).2 : Int) ≤ (burst : Int) + ⌈rate * ((W : Nat) : Rat)⌉)
    ∧ (∀ (st2 : Option TB) (now : Nat),
        tbRefill rate burst st2 now ≤ (burst : Rat)
        ∧ ((1 : Rat) ≤ tbRefill rate burst st2 now →
            (tbStep rate burst st2 now).1.tokens = tbRefill rate burst st2 now - 1
            ∧ (tbStep rate burst st2 now).2.1 = true)
        ∧ (tbRefill rate burst st2 now < 1 →
            (tbStep rate burst st2 now).2.1 = false
            ∧ (tbStep rate burst st2 now).2.2
                = ⌈(1 - tbRefill rate burst st2 now) / rate⌉)) := by
  have hmono : ∀ x : Rat, x ≤ (burst : Rat) + rate * ((W : Nat) : Rat) →
      ∀ n : Nat, ((n : Rat) ≤ x → (n : Int) ≤ (burst : Int) + ⌈rate * ((W : Nat) : Rat)⌉) := by
    intro x hx n hn
    have h1 : ((n : Nat) : Rat) ≤ rate * ((W : Nat) : Rat) + (burst : Rat) := by linarith
    have h2 : ((n : Nat) : Int) = ⌈((n : Nat) : Rat)⌉ := (Int.ceil_natCast n).symm
    have h3 : (⌈((n : Nat) : Rat)⌉ : Int) ≤ ⌈rate * ((W : Nat) : Rat) + (burst : Rat)⌉ :=
      Int.ceil_le_ceil h1
    rw [Int.ceil_add_nat] at h3
    rw [h2]
    omega
  constructor
  · cases st with
    | some s =>
        obtain ⟨h0, hb, ht0, hch⟩ := hv
        have hle : ∀ t ∈ times, t ≤ t0 + W := fun t ht => (hwin t ht).2
        have hbound := tbRun_count_le rate burst hr times s (t0 + W) h0 hb hch hle
        have hrw : rate * ((t0 + W - s.ts : Nat) : Rat) ≤ rate * ((W : Nat) : Rat) := by
          apply mul_le_mul_of_nonneg_left _ hr.le
          have h9 : (t0 + W - s.ts : Nat) ≤ W := by omega
          exact_mod_cast h9
        exact hmono _ le_rfl _ (by exact_mod_cast (by linarith : ((tbRun rate burst (some s) times).2 : Rat) ≤ (burst : Rat) + rate * ((W : Nat) : Rat)))
    | none =>
        cases times with
        | nil =>
            simp only [tbRun, Nat.cast_zero, CharP.cast_eq_zero]
            have : (0 : Int) ≤ ⌈rate * ((W : Nat) : Rat)⌉ :=
              Int.ceil_nonneg (mul_nonneg hr.le (Nat.cast_nonneg _))
            omega
        | cons t ts =>
            rw [tbRun_none_eq]
            have hch : List.Chain (fun a b => a ≤ b) t (t :: ts) :=
              List.chain_cons.mpr ⟨le_refl t, hv⟩
            have hle : ∀ u ∈ t :: ts, u ≤ t0 + W := fun u hu => (hwin u hu).2
            have htw : t ≤ t0 + W := (hwin t (List.mem_cons_self _ _)).2
            have ht0t : t0 ≤ t := (hwin t (List.mem_cons_self _ _)).1
            have hbound := tbRun_count_le rate burst hr (t :: ts)
              ⟨t, (burst : Rat)⟩ (t0 + W) (Nat.cast_nonneg _) (le_refl _) hch hle
            have hbound2 : ((tbRun rate burst (some ⟨t, (burst : Rat)⟩) (t :: ts)).2 : Rat)
                ≤ (burst : Rat) + rate * ((t0 + W - t : Nat) : Rat) := hbound
            have hrw : rate * ((t0 + W - t : Nat) : Rat) ≤ rate * ((W : Nat) : Rat) := by
              apply mul_le_mul_of_nonneg_left _ hr.le
              have h9 : (t0 + W - t : Nat) ≤ W := by omega
              exact_mod_cast h9
            exact hmono _ le_rfl _ (by exact_mod_cast (by linarith : ((tbRun rate burst (some (⟨t, (burst : Rat)⟩ : TB)) (t :: ts)).2 : Rat) ≤ (burst : Rat) + rate * ((W : Nat) : Rat)))
  · intro st2 now
    refine ⟨tbRefill_le_burst rate burst st2 now, fun h => ?_, fun h => ?_⟩
    · unfold tbStep
      rw [if_pos h]
      exact ⟨rfl, rfl⟩
    · unfold tbStep
      rw [if_neg (not_le.mpr h)]
      exact ⟨rfl, rfl⟩

/-- C7 witness: the window theorem at rate 1 token/ms, burst 2, three
calls at time 0 inside the window `[0, 5]`, on an absent bucket, plus
the step mechanics at an absent bucket. -/
theorem rate_limit_window_bound_witness :
    (((tbRun 1 2 none [0, 0, 0]).2 : Int) ≤ ((2 : Nat) : Int) + ⌈(1 : Rat) * ((5 : Nat) : Rat)⌉)
    ∧ ((tbStep 1 2 none 0).1.tokens = tbRefill 1 2 none 0 - 1
        ∧ (tbStep 1 2 none 0).2.1 = true) :=
  ⟨(rate_limit_window_bound 1 2 [0, 0, 0] 0 5 none (by norm_num)
      (by constructor <;> simp) (by simp)).1,
   ((rate_limit_window_bound 1 2 [0, 0, 0] 0 5 none (by norm_num)
      (by constructor <;> simp) (by simp)).2 none 0).2.1 (by
        have : tbRefill 1 2 none 0 = 2 := rfl
        rw [this]; norm_num)⟩

/-- Helper: looking up the key just written. -/
theorem lookupA_updateA_self (m : List (String × ClientAgg)) (k : String)
    (v : ClientAgg) : lookupA (updateA m k v) k = some v := by
  induction m with
  | nil => simp [updateA, lookupA]
  | cons p rest ih =>
      obtain ⟨pk, pv⟩ := p
      by_cases h : pk = k
      · simp [updateA, lookupA, h]
      · simp [updateA, lookupA, h, ih]

/-- Helper: writing one key leaves the others unchanged. -/
theorem lookupA_updateA_ne (m : List (String × ClientAgg)) (k k2 : String)
    (v : ClientAgg) (h : k ≠ k2) :
    lookupA (updateA m k v) k2 = lookupA m k2 := by
  induction m with
  | nil => simp [updateA, lookupA, h]
  | cons p rest ih =>
      obtain ⟨pk, pv⟩ := p
      by_cases hp : pk = k
      · subst hp
        simp [updateA, lookupA, h]
      · simp [updateA, lookupA, hp, ih]

/-- Helper: one aggregation step only touches the event's own email, and
there it inserts the source IP into the IP set. -/
theorem aggStep_ips (m : List (String × ClientAgg)) (e : LogEvent)
    (email : String) :
    ((lookupA (aggStep m e) email).getD emptyAgg).ips
      = if e.email = email
        then setInsert ((lookupA m email).getD emptyAgg).ips e.srcIp
        else ((lookupA m email).getD emptyAgg).ips := by
  by_cases h : e.email = email
  · subst h
    simp [aggStep, lookupA_updateA_self]
  · simp [aggStep, h, lookupA_updateA_ne m e.email email _ h]

/-- Helper: folding the aggregation over events applies `setInsert` to
exactly the event's own source IPs, in order. -/
theorem foldl_aggStep_ips :
    ∀ (evs : List LogEvent) (m : List (String × ClientAgg)) (email : String),
      ((lookupA (evs.foldl aggStep m) email).getD emptyAgg).ips
        = ((evs.filter (fun e => e.email == email)).map (fun e => e.srcIp)).foldl
            setInsert ((lookupA m email).getD emptyAgg).ips := by
  intro evs
  induction evs with
  | nil => intro m email; simp
  | cons e rest ih =>
      intro m email
      simp only [List.foldl_cons, List.filter_cons]
      by_cases h : e.email = email
      · have hb : (e.email == email) = true := beq_iff_eq.mpr h
        simp only [hb, if_true, List.map_cons, List.foldl_cons]
        rw [ih, aggStep_ips, if_pos h]
      · have hb : (e.email == email) = false := beq_eq_false_iff_ne.mpr h
        simp only [hb, Bool.false_eq_true, if_false]
        rw [ih, aggStep_ips, if_neg h]

theorem mem_setInsert (l : List String) (x a : String) :
    a ∈ setInsert l x ↔ a ∈ l ∨ a = x := by
  unfold setInsert
  by_cases h : x ∈ l
  · simp only [h, if_true]
    constructor
    · exact Or.inl
    · rintro (h1 | rfl)
      · exact h1
      · exact h
  · simp only [h, if_false]
    rw [List.mem_cons]
    exact Or.comm

theorem mem_foldl_setInsert :
    ∀ (xs l : List String) (a : String),
      a ∈ List.foldl setInsert l xs ↔ a ∈ l ∨ a ∈ xs := by
  intro xs
  induction xs with
  | nil => intro l a; simp
  | cons x rest ih =>
      intro l a
      simp only [List.foldl_cons]
      rw [ih, mem_setInsert, List.mem_cons]
      tauto

theorem nodup_setInsert (l : List String) (x : String) (h : l.Nodup) :
    (setInsert l x).Nodup := by
  unfold setInsert
  by_cases hm : x ∈ l
  · simp only [hm, if_true]
    exact h
  · simp only [hm, if_false]
    exact List.Nodup.cons hm h

theorem nodup_foldl_setInsert :
    ∀ (xs l : List String), l.Nodup → (List.foldl setInsert l xs).Nodup := by
  intro xs
  induction xs with
  | nil => intro l h; simpa using h
  | cons x rest ih =>
      intro l h
      simp only [List.foldl_cons]
      exact ih _ (nodup_setInsert l x h)

theorem length_foldl_setInsert (xs : List String) :
    (List.foldl setInsert [] xs).length = xs.dedup.length := by
  have h1 : (List.foldl setInsert [] xs).Nodup :=
    nodup_foldl_setInsert xs [] List.nodup_nil
  have h2 : xs.dedup.Nodup := List.nodup_dedup xs
  have h3 : ∀ a, a ∈ List.foldl setInsert [] xs ↔ a ∈ xs.dedup := by
    intro a
    rw [mem_foldl_setInsert, List.mem_dedup]
    simp
  exact List.Perm.length_eq ((List.perm_ext_iff_of_nodup h1 h2).mpr h3)

/-- C3 counterexample: a single event for client "u" at epoch 700, with
`now = 1000`: the event is inside the default 600-second analysis window
(1000 − 700 ≤ 600) but its IP has been inactive longer than the claimed
`ip_active_ttl` of 120 seconds, so the claim predicts
`devices_estimate = 0`; `aggregate_status` nevertheless reports 1
because it counts every IP seen in the window and applies no per-IP
recency filter. -/
theorem devices_estimate_ttl_counterexample :
    devicesEstimate [⟨700, "u", "10.0.0.1", "h"⟩] "u" = 1
    ∧ specActiveIpsCount [⟨700, "u", "10.0.0.1", "h"⟩] "u" 1000 120 = 0
    ∧ ((1000 : Rat) - 700 ≤ 600)
    ∧ ¬ ((1000 : Rat) - 700 ≤ 120) := by
  refine ⟨rfl, ?_, by norm_num, by norm_num⟩
  have h1 : specLastSeenIp [⟨700, "u", "10.0.0.1", "h"⟩] "u" "10.0.0.1" = 700 := by
    unfold specLastSeenIp
    simp [max_eq_right]
  unfold specActiveIpsCount
  rw [show distinctIps [⟨(700 : Rat), "u", "10.0.0.1", "h"⟩] "u" = ["10.0.0.1"] from rfl]
  simp [h1]
  norm_num

/-- C3 amended: for every aggregated log snapshot and every client,
`devices_estimate` equals the number of distinct source IPs that appear
for that email anywhere in the analysis window; per-IP recency is not
consulted (no `ip_active_ttl` filter exists in `aggregate_status`). -/
theorem devices_estimate_counts_window_ips (events : List LogEvent)
    (email : String) :
    devicesEstimate events email
      = ((events.filter (fun e => e.email == email)).map
          (fun e => e.srcIp)).dedup.length := by
  unfold devicesEstimate aggregateClients
  rw [foldl_aggStep_ips]
  exact length_foldl_setInsert _

/-- Helper: a single restore worker classifies every item it consumes,
never raises, and collects at most 20 truncated error samples, in
order. -/
theorem wRun_spec (esOpt : Option (List String)) (f : RItem → AddRes) :
    ∀ (items : List RItem) (acc : WCounts),
      (items.foldl (wStep esOpt f) acc).exs
          = acc.exs + items.countP (classPre esOpt)
      ∧ (items.foldl (wStep esOpt f) acc).added
          = acc.added + items.countP (classAdded esOpt f)
      ∧ (items.foldl (wStep esOpt f) acc).skipped
          = acc.skipped + items.countP (classSkipped esOpt f)
      ∧ (items.foldl (wStep esOpt f) acc).errors
          = acc.errors + items.countP (classErrored esOpt f)
      ∧ (items.foldl (wStep esOpt f) acc).samples
          = acc.samples
            ++ (items.filterMap (sampleOf esOpt f)).take (20 - acc.samples.length) := by
  intro items
  induction items with
  | nil => intro acc; simp
  | cons it rest ih =>
      intro acc
      by_cases hp : hitPre esOpt it = true
      · have hw : wStep esOpt f acc it = { acc with exs := acc.exs + 1 } := by
          simp [wStep, hp]
        have hs : sampleOf esOpt f it = none := by
          simp [sampleOf, hp]
        simp only [List.foldl_cons, List.countP_cons, List.filterMap_cons, hw, hs]
        obtain ⟨ih1, ih2, ih3, ih4, ih5⟩ := ih { acc with exs := acc.exs + 1 }
        rw [ih1, ih2, ih3, ih4, ih5]
        refine ⟨?_, by simp [classAdded, hp], by simp [classSkipped, hp],
          by simp [classErrored, hp], by simp⟩
        simp only [classPre, hp]
        simp
        omega
      · have hpf : hitPre esOpt it = false := by
          cases h : hitPre esOpt it <;> simp_all
        cases hf : f it with
        | ok =>
            have hw : wStep esOpt f acc it = { acc with added := acc.added + 1 } := by
              simp [wStep, hpf, hf]
            have hs : sampleOf esOpt f it = none := by
              simp [sampleOf, hpf, hf]
            simp only [List.foldl_cons, List.countP_cons, List.filterMap_cons, hw, hs]
            obtain ⟨ih1, ih2, ih3, ih4, ih5⟩ := ih { acc with added := acc.added + 1 }
            rw [ih1, ih2, ih3, ih4, ih5]
            refine ⟨by simp [classPre, hpf], ?_, by simp [classSkipped, hpf, hf],
              by simp [classErrored, hpf, hf], by simp⟩
            simp only [classAdded, hpf, hf]
            simp
            omega
        | fail s m =>
            by_cases hae : (s || isAlreadyExistsMsg m) = true
            · have hw : wStep esOpt f acc it
                  = { acc with skipped := acc.skipped + 1 } := by
                simp [wStep, hpf, hf, hae]
              have hs : sampleOf esOpt f it = none := by
                simp [sampleOf, hpf, hf, hae]
              simp only [List.foldl_cons, List.countP_cons, List.filterMap_cons, hw, hs]
              obtain ⟨ih1, ih2, ih3, ih4, ih5⟩ := ih { acc with skipped := acc.skipped + 1 }
              rw [ih1, ih2, ih3, ih4, ih5]
              refine ⟨by simp [classPre, hpf], by simp [classAdded, hpf, hf], ?_,
                by simp [classErrored, hpf, hf, hae], by simp⟩
              simp only [classSkipped, hpf, hf, hae]
              simp
              omega
            · have haef : (s || isAlreadyExistsMsg m) = false := by
                cases h : (s || isAlreadyExistsMsg m) <;> simp_all
              have hw : wStep esOpt f acc it
                  = ⟨acc.exs, acc.added, acc.skipped, acc.errors + 1,
                      if acc.samples.length < 20
                      then acc.samples ++ [it.email ++ ": " ++ strTake 220 m]
                      else acc.samples⟩ := by
                simp [wStep, hpf, hf, haef]
              have hs : sampleOf esOpt f it
                  = some (it.email ++ ": " ++ strTake 220 m) := by
                simp [sampleOf, hpf, hf, haef]
              simp only [List.foldl_cons, List.countP_cons, List.filterMap_cons, hw, hs]
              obtain ⟨ih1, ih2, ih3, ih4, ih5⟩ :=
                ih ⟨acc.exs, acc.added, acc.skipped, acc.errors + 1,
                  if acc.samples.length < 20
                  then acc.samples ++ [it.email ++ ": " ++ strTake 220 m]
                  else acc.samples⟩
              rw [ih1, ih2, ih3, ih4, ih5]
              refine ⟨by simp [classPre, hpf], by simp [classAdded, hpf, hf], ?_, ?_, ?_⟩
              · simp [classSkipped, hpf, hf, haef]
              · simp only [classErrored, hpf, hf, haef]
                simp
                omega
              · by_cases hlen : acc.samples.length < 20
                · simp only [hlen, if_true, List.length_append, List.length_cons,
                    List.length_nil]
                  rw [show 20 - acc.samples.length = (20 - (acc.samples.length + 1)) + 1
                      from by omega]
                  rw [List.take_succ_cons]
                  simp only [show acc.samples.length + (0 + 1) = acc.samples.length + 1
                      from by omega]
                  rw [List.append_assoc]
                  simp
                · have h20 : 20 - acc.samples.length = 0 := by omega
                  simp [hlen, h20]

/-- Helper: the sample merge keeps at most the first 20 samples of the
concatenated per-worker sample lists. -/
theorem capAppend_foldl :
    ∀ (ls : List (List String)) (acc : List String),
      ls.foldl capAppend acc = acc ++ ls.flatten.take (20 - acc.length) := by
  intro ls
  induction ls with
  | nil => intro acc; simp
  | cons l rest ih =>
      intro acc
      simp only [List.foldl_cons, List.flatten_cons]
      rw [ih]
      unfold capAppend
      have hlen : (acc ++ l.take (20 - acc.length)).length
          = acc.length + min (20 - acc.length) l.length := by
        simp [List.length_take]
      rw [hlen]
      have hidx : 20 - (acc.length + min (20 - acc.length) l.length)
          = (20 - acc.length) - l.length := by
        rcases Nat.le_total (20 - acc.length) l.length with h | h
        · rw [Nat.min_eq_left h]
          omega
        · rw [Nat.min_eq_right h]
          omega
      rw [hidx, List.take_append_eq_append_take, List.append_assoc]

/-- Helper: summing the per-worker results over any distribution of the
deduplicated items across workers yields the global per-item counts and
a sample list of at most 20 entries. -/
theorem restore_counts (f : RItem → AddRes) (esOpt : Option (List String))
    (part : List (List RItem)) (target : List RItem)
    (hpart : part.flatten.Perm target) (dup total : Nat) :
    (mergeResults dup total (part.map (workerRun esOpt f))).exs
        = target.countP (classPre esOpt)
    ∧ (mergeResults dup total (part.map (workerRun esOpt f))).added
        = target.countP (classAdded esOpt f)
    ∧ (mergeResults dup total (part.map (workerRun esOpt f))).skipped
        = dup + target.countP (classSkipped esOpt f)
    ∧ (mergeResults dup total (part.map (workerRun esOpt f))).errors
        = target.countP (classErrored esOpt f)
    ∧ (mergeResults dup total (part.map (workerRun esOpt f))).samples
        = (part.map (fun l => (l.filterMap (sampleOf esOpt f)).take 20)).flatten.take 20
    ∧ (mergeResults dup total (part.map (workerRun esOpt f))).samples.length ≤ 20
    ∧ (mergeResults dup total (part.map (workerRun esOpt f))).total = total := by
  have hcount : ∀ p : RItem → Bool,
      ((part.map fun l => l.countP p).sum) = target.countP p := by
    intro p
    rw [← List.countP_flatten]
    exact hpart.countP_eq p
  have hw : ∀ l : List RItem,
      workerRun esOpt f l
        = ⟨l.countP (classPre esOpt), l.countP (classAdded esOpt f),
           l.countP (classSkipped esOpt f), l.countP (classErrored esOpt f),
           (l.filterMap (sampleOf esOpt f)).take 20⟩ := by
    intro l
    obtain ⟨h1, h2, h3, h4, h5⟩ := wRun_spec esOpt f l ⟨0, 0, 0, 0, []⟩
    unfold workerRun
    have h5b : (l.foldl (wStep esOpt f) ⟨0, 0, 0, 0, []⟩).samples
        = (l.filterMap (sampleOf esOpt f)).take 20 := by
      simpa using h5
    cases hres : l.foldl (wStep esOpt f) ⟨0, 0, 0, 0, []⟩ with
    | mk a b c d e =>
        rw [hres] at h1 h2 h3 h4 h5b
        simp at h1 h2 h3 h4 h5b
        simp [h1, h2, h3, h4, h5b]
  have hmap : part.map (workerRun esOpt f)
      = part.map (fun l =>
          (⟨l.countP (classPre esOpt), l.countP (classAdded esOpt f),
            l.countP (classSkipped esOpt f), l.countP (classErrored esOpt f),
            (l.filterMap (sampleOf esOpt f)).take 20⟩ : WCounts)) :=
    List.map_congr_left (fun l _ => hw l)
  rw [hmap]
  refine ⟨?_, ?_, ?_, ?_, ?_, ?_, ?_⟩
  · simp only [mergeResults, List.map_map, Function.comp_def]
    exact hcount _
  · simp only [mergeResults, List.map_map, Function.comp_def]
    exact hcount _
  · simp only [mergeResults, List.map_map, Function.comp_def]
    exact congrArg (fun n => dup + n) (hcount _)
  · simp only [mergeResults, List.map_map, Function.comp_def]
    exact hcount _
  · simp only [mergeResults, mergeSamples, List.map_map, Function.comp_def]
    rw [capAppend_foldl]
    simp
  · simp only [mergeResults, mergeSamples, List.map_map, Function.comp_def]
    rw [capAppend_foldl]
    simp [List.length_take]
  · rfl

/-- C9: for every bulk-restore request and any distribution of the
deduplicated items over the concurrent workers, a per-item `add_client`
failure never fails the request: a precheck failure aborts with HTTP 502,
and otherwise the request returns the aggregated counts, where an item
whose error is classified already-exists increments `skipped` (on top of
the in-memory duplicates), any other per-item error increments `errors`,
every sample is a truncated `"email: message"` string collected only
while the buffer is under 20, and at most 20 samples are returned. -/
theorem restore_per_item_policy (itemsIn : List RItem) (f : RItem → AddRes)
    (part : List (List RItem))
    (hpart : part.flatten.Perm (dedupeItems itemsIn).1) :
    (∀ e, restoreRun itemsIn true (Except.error e) f part
        = Except.error ⟨502, "precheck failed: " ++ strTake 1200 e⟩)
    ∧ (∀ emails,
        isOkE (restoreRun itemsIn true (Except.ok emails) f part) = true
        ∧ (okOut (restoreRun itemsIn true (Except.ok emails) f part)).total
            = (dedupeItems itemsIn).1.length
        ∧ (okOut (restoreRun itemsIn true (Except.ok emails) f part)).exs
            = (dedupeItems itemsIn).1.countP (classPre (some (emails.map normEmail)))
        ∧ (okOut (restoreRun itemsIn true (Except.ok emails) f part)).added
            = (dedupeItems itemsIn).1.countP
                (classAdded (some (emails.map normEmail)) f)
        ∧ (okOut (restoreRun itemsIn true (Except.ok emails) f part)).skipped
            = (dedupeItems itemsIn).2 + (dedupeItems itemsIn).1.countP
                (classSkipped (some (emails.map normEmail)) f)
        ∧ (okOut (restoreRun itemsIn true (Except.ok emails) f part)).errors
            = (dedupeItems itemsIn).1.countP
                (classErrored (some (emails.map normEmail)) f)
        ∧ (okOut (restoreRun itemsIn true (Except.ok emails) f part)).samples
            = (part.map (fun l =>
                (l.filterMap (sampleOf (some (emails.map normEmail)) f)).take 20)).flatten.take 20
        ∧ (okOut (restoreRun itemsIn true (Except.ok emails) f part)).samples.length ≤ 20)
    ∧ (∀ pr,
        isOkE (restoreRun itemsIn false pr f part) = true
        ∧ (okOut (restoreRun itemsIn false pr f part)).total
            = (dedupeItems itemsIn).1.length
        ∧ (okOut (restoreRun itemsIn false pr f part)).exs
            = (dedupeItems itemsIn).1.countP (classPre none)
        ∧ (okOut (restoreRun itemsIn false pr f part)).added
            = (dedupeItems itemsIn).1.countP (classAdded none f)
        ∧ (okOut (restoreRun itemsIn false pr f part)).skipped
            = (dedupeItems itemsIn).2
              + (dedupeItems itemsIn).1.countP (classSkipped none f)
        ∧ (okOut (restoreRun itemsIn false pr f part)).errors
            = (dedupeItems itemsIn).1.countP (classErrored none f)
        ∧ (okOut (restoreRun itemsIn false pr f part)).samples
            = (part.map (fun l =>
                (l.filterMap (sampleOf none f)).take 20)).flatten.take 20
        ∧ (okOut (restoreRun itemsIn false pr f part)).samples.length ≤ 20) := by
  refine ⟨fun e => rfl, fun emails => ?_, fun pr => ?_⟩
  · obtain ⟨h1, h2, h3, h4, h5, h6, h7⟩ :=
      restore_counts f (some (emails.map normEmail)) part
        (dedupeItems itemsIn).1 hpart (dedupeItems itemsIn).2
        (dedupeItems itemsIn).1.length
    exact ⟨rfl, h7, h1, h2, h3, h4, h5, h6⟩
  · obtain ⟨h1, h2, h3, h4, h5, h6, h7⟩ :=
      restore_counts f none part
        (dedupeItems itemsIn).1 hpart (dedupeItems itemsIn).2
        (dedupeItems itemsIn).1.length
    exact ⟨rfl, h7, h1, h2, h3, h4, h5, h6⟩

/-- C9 witness: the restore theorem at a concrete request with one
duplicate pair, one successful add, one already-exists failure and one
real failure, distributed over two workers. -/
theorem restore_per_item_policy_witness :
    restoreRun demoItems true (Except.error "down") demoF demoPart
      = Except.error ⟨502, "precheck failed: " ++ strTake 1200 "down"⟩
    ∧ isOkE (restoreRun demoItems true (Except.ok []) demoF demoPart) = true
    ∧ (okOut (restoreRun demoItems true (Except.ok []) demoF demoPart)).errors
        = (dedupeItems demoItems).1.countP
            (classErrored (some (List.map normEmail [])) demoF)
    ∧ (okOut (restoreRun demoItems true (Except.ok []) demoF demoPart)).samples.length
        ≤ 20 :=
  ⟨(restore_per_item_policy demoItems demoF demoPart (List.Perm.refl _)).1 "down",
   ((restore_per_item_policy demoItems demoF demoPart (List.Perm.refl _)).2.1 []).1,
   ((restore_per_item_policy demoItems demoF demoPart
      (List.Perm.refl _)).2.1 []).2.2.2.2.2.1,
   ((restore_per_item_policy demoItems demoF demoPart
      (List.Perm.refl _)).2.1 []).2.2.2.2.2.2.2⟩

/-- C10 witness: the parse theorem applied to the numeric string " -42 "
and to the unparseable string "12.5". -/
theorem inbound_users_count_parse_witness :
    (pyIntOfString " -42 " = some (-42)
      ∧ inboundUsersCountParse (some (PyVal.vStr " -42 ")) = -42)
    ∧ (pyInt (PyVal.vStr "12.5") = none
      ∧ inboundUsersCountParse (some (PyVal.vStr "12.5")) = 0) :=
  ⟨⟨by decide, (inbound_users_count_parse PyVal.vNull).2.1 " -42 " (-42) (by decide)⟩,
   ⟨by decide, (inbound_users_count_parse (PyVal.vStr "12.5")).2.2.2 (by decide)⟩⟩

end XrayAgent
